import Mathlib

/-!
Shallow embedding of `facefusion/filesystem.py`.

Modelling conventions:
* Paths are plain strings; path-structure primitives (`os.path.splitext`,
  `os.path.dirname`, `os.path.basename`, `os.path.join`) are embedded from
  CPython's `posixpath` implementation, working on `List Char`.
* The filesystem is an explicit state `FS`: the set of regular-file paths, the
  set of directory paths, plus the `os.listdir` and `glob.glob` primitives as
  oracle functions.  The model is fault-free: OS reads do not fail spuriously
  (races and permission errors are not modelled), so the only failures are the
  deterministic ones the code itself can produce.
* Fallible calls return `Except PyErr`; `_error_handler` is embedded as a
  function of the per-attempt outcome sequence, so that retry behaviour is
  visible.
-/

/-- Python-level exception classes that the modelled code can raise. -/
inductive PyErr
  /-- `TypeError`, e.g. calling a function with too many positional arguments. -/
  | typeError
  /-- `NameError`, reading an identifier that is not bound in any scope. -/
  | nameError
  /-- `FileNotFoundError` from an OS call on a missing path. -/
  | fileNotFound
  /-- `FileExistsError` from `mkdir` on an existing non-directory path. -/
  | fileExists
  /-- `NotADirectoryError` from `mkdir` under a path component that is a file. -/
  | notADirectory
deriving DecidableEq, Repr

/-- Split a character list at the LAST occurrence of `c`:
`splitLast c cs = some (pre, post)` with `cs = pre ++ c :: post` and `c ∉ post`;
`none` when `c` does not occur. -/
def splitLast (c : Char) : List Char → Option (List Char × List Char)
  | [] => none
  | x :: xs =>
    match splitLast c xs with
    | some (pre, post) => some (x :: pre, post)
    | none => if x = c then some ([], xs) else none

/-- Python `str.lower` as a character-wise map.  `Char.toLower` folds ASCII
`A`–`Z` to `a`–`z` and fixes everything else, which agrees with Python on the
ASCII range (Python's full Unicode folding is out of scope for path strings
handled here). -/
def str_lower (s : String) : String := ⟨s.toList.map Char.toLower⟩

/-- Python `str.startswith` with a single string argument. -/
def str_startswith (s pre : String) : Bool := pre.toList.isPrefixOf s.toList

/-- Python `str.endswith` with a single string argument. -/
def str_endswith (s suf : String) : Bool := suf.toList.isSuffixOf s.toList

/-- `posixpath.basename`: everything after the last `/` (the whole string when
there is no `/`). -/
def os_path_basename (p : String) : String :=
  match splitLast '/' p.toList with
  | none => p
  | some (_, post) => ⟨post⟩

/-- `posixpath.dirname`: the prefix up to (and normally excluding) the last `/`;
a head consisting only of slashes is kept as-is, otherwise trailing slashes are
stripped (CPython: `head = p[:i]; if head and head != sep*len(head):
head = head.rstrip(sep)`). -/
def os_path_dirname (p : String) : String :=
  match splitLast '/' p.toList with
  | none => ""
  | some (pre, _) =>
    let head := pre ++ ['/']
    if head.all (fun ch => ch = '/') then ⟨head⟩
    else ⟨(head.reverse.dropWhile (fun ch => ch = '/')).reverse⟩

/-- `posixpath.join` restricted to two components, as used by
`resolve_file_paths`: absolute second component replaces the first; otherwise
insert a `/` separator unless the first part is empty or already ends in `/`. -/
def os_path_join (a b : String) : String :=
  if str_startswith b ("/") then b
  else if a = "" || str_endswith a ("/") then a ++ b
  else a ++ ("/") ++ b

/-- The base-name part of `posixpath.splitext`: `dirRaw` is the directory
prefix of the whole path `p` (everything up to and including the last `/`) and
`base` the remainder.  Leading dots of `base` never start an extension; the
extension, when any, starts at the last dot of what follows them. -/
def splitextBase (p : String) (dirRaw base : List Char) : String × String :=
  match splitLast '.' (base.dropWhile (fun ch => ch = '.')) with
  | some (stem, tail) =>
    (⟨dirRaw ++ base.takeWhile (fun ch => ch = '.') ++ stem⟩, ⟨'.' :: tail⟩)
  | none => (p, "")

/-- `posixpath.splitext`.  CPython finds the last `.` that comes after the last
`/` and has at least one non-`.` character between them (so leading dots of the
base name never start an extension).  Equivalently, as embedded here: take the
base name, strip its leading dots, and split the remainder at its last dot. -/
def os_path_splitext (p : String) : String × String :=
  match splitLast '/' p.toList with
  | none => splitextBase p [] p.toList
  | some (pre, post) => splitextBase p (pre ++ ['/']) post

/-- `get_file_name` from the source: base name with the extension stripped,
`None` when the resulting name is empty. -/
def get_file_name (file_path : String) : Option String :=
  let name := (os_path_splitext (os_path_basename file_path)).1
  if name = "" then none else some name

/-- `get_file_extension` from the source: the lower-cased extension including
its leading dot, `None` when the extension is empty. -/
def get_file_extension (file_path : String) : Option String :=
  let extension := (os_path_splitext file_path).2
  if extension = "" then none else some (str_lower extension)

/-- `get_file_format` from the source: `None` without an extension, the two
hard-coded renames for `.jpg` and `.tif`, otherwise the extension with all
leading dots stripped (Python `extension.lstrip` with a dot argument). -/
def get_file_format (file_path : String) : Option String :=
  match get_file_extension file_path with
  | none => none
  | some extension =>
    if extension = (".jpg") then some ("jpeg")
    else if extension = (".tif") then some ("tiff")
    else some ⟨extension.toList.dropWhile (fun ch => ch = '.')⟩

/-- `same_file_extension` from the source. -/
def same_file_extension (first_path second_path : String) : Bool :=
  get_file_extension first_path = get_file_extension second_path

/-- The filesystem state: which paths are regular files, which are directories,
plus the `os.listdir` and `glob.glob` read primitives as oracle functions
(`listing dir` is the unsorted entry-name list `os.listdir` returns, and
`globMatches pat` the unsorted match list `glob.glob` returns).  Mutating
operations update `files`/`dirs`; the two oracles model read-only OS calls. -/
structure FS where
  files : List String
  dirs : List String
  listing : String → List String
  globMatches : String → List String

/-- `os.path.isfile` on the modelled state. -/
def os_isfile (fs : FS) (p : String) : Bool := fs.files.contains p

/-- `os.path.isdir` on the modelled state. -/
def os_isdir (fs : FS) (p : String) : Bool := fs.dirs.contains p

/-- `_error_handler` from the source, embedded over the sequence of outcomes
the wrapped operation would produce on successive invocations: `op i` is the
outcome of invocation number `i` (0-based).  `extra` counts the attempts that
may still follow the current one, so a source-level `retries = r` call with
`r ≥ 1` is `errorHandlerFrom op 0 (r - 1)`: with no attempt left the last
outcome is returned whether it is a success or a raised failure, otherwise a
failure leads to a sleep (not modelled) and a retry.  The source's degenerate
`retries = 0` call, which would return Python `None` without invoking the
operation, is outside this embedding. -/
def errorHandlerFrom {ε α : Type} (op : Nat → Except ε α) : Nat → Nat → Except ε α
  | i, 0 => op i
  | i, extra + 1 =>
    match op i with
    | .ok v => .ok v
    | .error _ => errorHandlerFrom op (i + 1) extra

/-- `_error_handler(func, *args, retries, delay)` for `retries ≥ 1`:
run the attempt sequence starting at attempt 0. -/
def error_handler {ε α : Type} (op : Nat → Except ε α) (retries : Nat) : Except ε α :=
  errorHandlerFrom op 0 (retries - 1)

/-- Number of invocations `_error_handler` performs, mirroring the recursion of
`errorHandlerFrom` (one invocation per attempt actually executed). -/
def errorHandlerCallsFrom {ε α : Type} (op : Nat → Except ε α) : Nat → Nat → Nat
  | _, 0 => 1
  | i, extra + 1 =>
    match op i with
    | .ok _ => 1
    | .error _ => 1 + errorHandlerCallsFrom op (i + 1) extra

/-- Invocation count of `error_handler` for `retries ≥ 1`. -/
def error_handler_calls {ε α : Type} (op : Nat → Except ε α) (retries : Nat) : Nat :=
  errorHandlerCallsFrom op 0 (retries - 1)

/-- `is_file` from the source: `bool(file_path and _error_handler(os.path.isfile,
file_path))` — an empty path short-circuits before any OS call; the wrapped
deterministic `os.path.isfile` collapses per `error_handler_const`. -/
def is_file (fs : FS) (file_path : String) : Bool :=
  if file_path = "" then false else os_isfile fs file_path

/-- `is_directory` from the source, analogously. -/
def is_directory (fs : FS) (directory_path : String) : Bool :=
  if directory_path = "" then false else os_isdir fs directory_path

/-- Modelled from the spec: the configuration collaborator `facefusion.choices`
is not part of the sources; per the spec it exposes three ordered lists of bare
lower-case format strings (audio, image and video formats). -/
structure Choices where
  audio_formats : List String
  image_formats : List String
  video_formats : List String

/-- Python `x in formats` where `x` is an `Optional[str]`: `None` is never a
member of a list of strings. -/
def optionMem (x : Option String) (formats : List String) : Bool :=
  match x with
  | none => false
  | some s => formats.contains s

/-- `_is_media_type` from the source. -/
def is_media_type (fs : FS) (path : String) (formats : List String) : Bool :=
  is_file fs path && optionMem (get_file_format path) formats

/-- `is_audio` from the source. -/
def is_audio (fs : FS) (cfg : Choices) (audio_path : String) : Bool :=
  is_media_type fs audio_path cfg.audio_formats

/-- `has_audio` from the source: `any(...) if audio_paths else False`. -/
def has_audio (fs : FS) (cfg : Choices) (audio_paths : List String) : Bool :=
  if audio_paths.isEmpty then false else audio_paths.any (is_audio fs cfg)

/-- `are_audios` from the source: `all(...) if audio_paths else False`. -/
def are_audios (fs : FS) (cfg : Choices) (audio_paths : List String) : Bool :=
  if audio_paths.isEmpty then false else audio_paths.all (is_audio fs cfg)

/-- `is_image` from the source. -/
def is_image (fs : FS) (cfg : Choices) (image_path : String) : Bool :=
  is_media_type fs image_path cfg.image_formats

/-- `has_image` from the source. -/
def has_image (fs : FS) (cfg : Choices) (image_paths : List String) : Bool :=
  if image_paths.isEmpty then false else image_paths.any (is_image fs cfg)

/-- `are_images` from the source.  The source line is
`return all(map(is_image, image_paths)) if audio_paths else False`: the guard
reads the name `audio_paths`, which is bound nowhere in scope (the parameter is
`image_paths` and there is no global of that name), and a Python conditional
expression evaluates its condition first, so every call raises `NameError`
before the list is examined. -/
def are_images (fs : FS) (cfg : Choices) (image_paths : List String) :
    Except PyErr Bool :=
  .error .nameError

/-- `is_video` from the source. -/
def is_video (fs : FS) (cfg : Choices) (video_path : String) : Bool :=
  is_media_type fs video_path cfg.video_formats

/-- `has_video` from the source. -/
def has_video (fs : FS) (cfg : Choices) (video_paths : List String) : Bool :=
  if video_paths.isEmpty then false else video_paths.any (is_video fs cfg)

/-- `are_videos` from the source. -/
def are_videos (fs : FS) (cfg : Choices) (video_paths : List String) : Bool :=
  if video_paths.isEmpty then false else video_paths.all (is_video fs cfg)

/-- `filter_audio_paths` from the source:
`[p for p in paths if is_audio(p)] if paths else []`. -/
def filter_audio_paths (fs : FS) (cfg : Choices) (paths : List String) : List String :=
  if paths.isEmpty then [] else paths.filter (is_audio fs cfg)

/-- `filter_image_paths` from the source. -/
def filter_image_paths (fs : FS) (cfg : Choices) (paths : List String) : List String :=
  if paths.isEmpty then [] else paths.filter (is_image fs cfg)

/-- A Python value as passed positionally to a file operation: a path string or
`None` (the `dest` argument `remove_file` passes). -/
inductive PyVal
  | vstr (s : String)
  | vnone
deriving DecidableEq, Repr

/-- `os.remove`, applied to the positional argument list of the call site.
CPython's signature is `remove(path, *, dir_fd=None)`: `dir_fd` is
keyword-only, so any call with a second positional argument raises `TypeError`
before touching the filesystem; with a single string argument it unlinks an
existing regular file and raises `FileNotFoundError` on a missing one. -/
def os_remove (fs : FS) (args : List PyVal) : Except PyErr FS :=
  match args with
  | [PyVal.vstr p] =>
    if os_isfile fs p then .ok { fs with files := fs.files.erase p }
    else .error .fileNotFound
  | _ => .error .typeError

/-- Insert a path into a path list without duplicating it. -/
def insertPath (p : String) (ps : List String) : List String :=
  if ps.contains p then ps else p :: ps

/-- `shutil.copy(src, dst)` on the model: copies an existing regular file; when
`dst` is a directory the file lands inside it under the source's base name,
otherwise at `dst` itself.  A missing source raises `FileNotFoundError`; any
other positional argument shape raises `TypeError`. -/
def shutil_copy (fs : FS) (args : List PyVal) : Except PyErr FS :=
  match args with
  | [PyVal.vstr src, PyVal.vstr dst] =>
    if os_isfile fs src then
      let target := if os_isdir fs dst then os_path_join dst (os_path_basename src) else dst
      .ok { fs with files := insertPath target fs.files }
    else .error .fileNotFound
  | _ => .error .typeError

/-- `shutil.move(src, dst)` on the model, analogously to `shutil_copy`. -/
def shutil_move (fs : FS) (args : List PyVal) : Except PyErr FS :=
  match args with
  | [PyVal.vstr src, PyVal.vstr dst] =>
    if os_isfile fs src then
      let target := if os_isdir fs dst then os_path_join dst (os_path_basename src) else dst
      .ok { fs with files := insertPath target (fs.files.erase src) }
    else .error .fileNotFound
  | _ => .error .typeError

/-- `_file_operation(operation, src, dest, success_condition)` from the source:
run `operation(src, dest)` (two positional arguments) through `_error_handler`
with the default `retries=3`, then report `success_condition()`.  A failure
that survives the retries propagates as the raised error. -/
def file_operation (fs : FS) (operation : FS → List PyVal → Except PyErr FS)
    (src dest : PyVal) (success_condition : FS → Bool) : Except PyErr (FS × Bool) :=
  match error_handler (fun _ => operation fs [src, dest]) 3 with
  | .ok fs2 => .ok (fs2, success_condition fs2)
  | .error e => .error e

/-- `copy_file` from the source. -/
def copy_file (fs : FS) (file_path move_path : String) : Except PyErr (FS × Bool) :=
  if is_file fs file_path then
    file_operation fs shutil_copy (PyVal.vstr file_path) (PyVal.vstr move_path)
      (fun fs2 => is_file fs2 move_path)
  else .ok (fs, false)

/-- `move_file` from the source. -/
def move_file (fs : FS) (file_path move_path : String) : Except PyErr (FS × Bool) :=
  if is_file fs file_path then
    file_operation fs shutil_move (PyVal.vstr file_path) (PyVal.vstr move_path)
      (fun fs2 => !is_file fs2 file_path && is_file fs2 move_path)
  else .ok (fs, false)

/-- `remove_file` from the source: note the call
`_file_operation(os.remove, file_path, None, ...)`, which makes `os.remove`
receive `None` as a second positional argument. -/
def remove_file (fs : FS) (file_path : String) : Except PyErr (FS × Bool) :=
  if is_file fs file_path then
    file_operation fs os_remove (PyVal.vstr file_path) PyVal.vnone
      (fun fs2 => !is_file fs2 file_path)
  else .ok (fs, false)

/-- The chain of strict ancestors of a path, innermost first, obtained by
iterating `os.path.dirname` until it reaches the empty string or a fixpoint
(`/` or an all-slash prefix).  Fuelled by the string length, which bounds the
chain since `dirname` only shortens. -/
def parentChain : Nat → String → List String
  | 0, _ => []
  | fuel + 1, p =>
    let d := os_path_dirname p
    if d = "" || d = p then [] else d :: parentChain fuel d

/-- Strict ancestors of a path (see `parentChain`). -/
def strictAncestors (p : String) : List String := parentChain p.length p

/-- `os.makedirs(name, exist_ok=True)` on the model.  CPython recurses on
`dirname` creating missing prefixes, then `mkdir(name)`; with `exist_ok=True` a
pre-existing directory is accepted.  It still raises when `name` itself exists
as a non-directory (`FileExistsError`, since `exist_ok` only forgives
directories) or when some strict ancestor is a regular file
(`NotADirectoryError` from the failing `mkdir`).  On success every ancestor,
`name` included, is a directory. -/
def os_makedirs_existok (fs : FS) (name : String) : Except PyErr FS :=
  if fs.files.contains name then .error .fileExists
  else if (strictAncestors name).any fs.files.contains then .error .notADirectory
  else .ok { fs with
    dirs := (name :: strictAncestors name).foldl (fun ds a => insertPath a ds) fs.dirs }

/-- `create_directory` from the source. -/
def create_directory (fs : FS) (directory_path : String) : Except PyErr (FS × Bool) :=
  if directory_path = "" || is_file fs directory_path then .ok (fs, false)
  else
    match error_handler (fun _ => os_makedirs_existok fs directory_path) 3 with
    | .ok fs2 => .ok (fs2, is_directory fs2 directory_path)
    | .error e => .error e

/-- Lexicographic comparison of character lists by code point, as Python
compares strings: `charListLe as bs` is true iff `as` is not strictly greater
than `bs`. -/
def charListLe : List Char → List Char → Bool
  | [], _ => true
  | _ :: _, [] => false
  | a :: as, b :: bs =>
    if a < b then true else if b < a then false else charListLe as bs

/-- The order Python `sorted` uses on strings, executably. -/
def py_le (a b : String) : Bool := charListLe a.toList b.toList

/-- Python `sorted` on a list of strings: the `≤`-sorted permutation of the
input (Python sorts by code points, which is `String`'s lexicographic order;
duplicates are identical strings, so stability cannot be observed and any
sorted permutation is THE result).  Embedded with `List.insertionSort` on the
executable comparison `py_le`, which `py_le_iff_le` identifies with `≤`. -/
def py_sorted (l : List String) : List String :=
  List.insertionSort (fun a b => py_le a b = true) l

/-- `resolve_file_paths` from the source: empty for a non-directory, otherwise
the sorted `os.listdir` entries, those starting with a dot or a double
underscore excluded, each joined onto the directory.  The wrapped `os.listdir`
read is deterministic in the model (see `error_handler_const`). -/
def resolve_file_paths (fs : FS) (directory_path : String) : List String :=
  if is_directory fs directory_path then
    ((py_sorted (fs.listing directory_path)).filter
        (fun entry => !(str_startswith entry (".") || str_startswith entry ("__")))).map
      (fun entry => os_path_join directory_path entry)
  else []

/-- `in_directory` from the source. -/
def in_directory (fs : FS) (file_path : String) : Bool :=
  if file_path = "" then false
  else
    let dir_path := os_path_dirname file_path
    !(dir_path = "") && !is_directory fs file_path && is_directory fs dir_path

/-- `resolve_file_pattern` from the source: the sorted `glob.glob` matches when
`in_directory` accepts the pattern, the empty list otherwise. -/
def resolve_file_pattern (fs : FS) (file_pattern : String) : List String :=
  if in_directory fs file_pattern then py_sorted (fs.globMatches file_pattern)
  else []

/-- The format mapping as claim C5 words it, written against the raw
`splitext` extension: absent when the path has no extension; `.jpg` maps to
`jpeg` and `.tif` to `tiff`; any other extension is lower-cased with THE
leading dot (one character) dropped. -/
def get_file_format_claim (p : String) : Option String :=
  let ext := (os_path_splitext p).2
  if ext = "" then none
  else if str_lower ext = (".jpg") then some ("jpeg")
  else if str_lower ext = (".tif") then some ("tiff")
  else some ⟨(str_lower ext).toList.drop 1⟩

/-- Fixture: an empty filesystem. -/
def fsEmpty : FS :=
  { files := [], dirs := [], listing := fun _ => [], globMatches := fun _ => [] }

/-- Fixture: a filesystem holding the single regular file `a.txt`. -/
def fsOneFile : FS :=
  { files := ["a.txt"], dirs := [], listing := fun _ => [], globMatches := fun _ => [] }

/-- Fixture: a filesystem holding the single regular file `a`. -/
def fsFileA : FS :=
  { files := ["a"], dirs := [], listing := fun _ => [], globMatches := fun _ => [] }

/-- Fixture: a filesystem with directory `/d` whose listing is the spec's
example `[".git", "__pycache__", "b.txt", "a.txt"]` (deliberately unsorted). -/
def fsListed : FS :=
  { files := [], dirs := ["/d"],
    listing := fun _ => [".git", "__pycache__", "b.txt", "a.txt"],
    globMatches := fun _ => [] }

/-- Fixture: a filesystem with directory `/d` and two glob matches for any
pattern (deliberately unsorted). -/
def fsGlobbed : FS :=
  { files := [], dirs := ["/d"], listing := fun _ => [],
    globMatches := fun _ => ["/d/b.png", "/d/a.png"] }

/-- Fixture: a small format configuration. -/
def cfgDefault : Choices :=
  { audio_formats := ["mp3", "wav"], image_formats := ["jpeg", "png"],
    video_formats := ["mp4"] }

/-- Fixture: a filesystem with one audio file, one image file and a directory. -/
def fsMedia : FS :=
  { files := ["x.mp3", "y.jpeg"], dirs := ["d"], listing := fun _ => [],
    globMatches := fun _ => [] }

/-- Fixture: an attempt-outcome sequence that fails twice, then succeeds. -/
def opTwiceFailing : Nat → Except String Nat :=
  fun i => if i < 2 then Except.error ("boom") else Except.ok 42

/-- Fixture: an attempt-outcome sequence that always fails. -/
def opAlwaysFailing : Nat → Except String Nat :=
  fun i => Except.error ("fail " ++ toString i)

/-!  ## Theorems  -/

theorem splitLast_none {c : Char} :
    ∀ {cs : List Char}, splitLast c cs = none → c ∉ cs := by
  intro cs
  induction cs with
  | nil => intro _; simp
  | cons x xs ih =>
    intro h
    simp only [splitLast] at h
    cases hx : splitLast c xs with
    | some pr => rw [hx] at h; cases h
    | none =>
      rw [hx] at h
      by_cases hxc : x = c
      · rw [if_pos hxc] at h; cases h
      · simp only [List.mem_cons]
        intro hor
        rcases hor with h1 | h1
        · exact hxc h1.symm
        · exact ih hx h1

theorem splitLast_eq_append {c : Char} :
    ∀ {cs pre post : List Char}, splitLast c cs = some (pre, post) →
      cs = pre ++ c :: post ∧ c ∉ post := by
  intro cs
  induction cs with
  | nil => intro pre post h; simp [splitLast] at h
  | cons x xs ih =>
    intro pre post h
    simp only [splitLast] at h
    cases hx : splitLast c xs with
    | some pr =>
      obtain ⟨pre0, post0⟩ := pr
      rw [hx] at h
      simp only [Option.some.injEq, Prod.mk.injEq] at h
      obtain ⟨h1, h2⟩ := h
      subst h1; subst h2
      exact ⟨by rw [(ih hx).1]; rfl, (ih hx).2⟩
    | none =>
      rw [hx] at h
      by_cases hxc : x = c
      · rw [if_pos hxc] at h
        simp only [Option.some.injEq, Prod.mk.injEq] at h
        obtain ⟨h1, h2⟩ := h
        subst h1; subst h2
        exact ⟨by rw [hxc]; rfl, splitLast_none hx⟩
      · rw [if_neg hxc] at h; cases h

/-- In the fault-free filesystem model every OS read is deterministic, so all
attempts return the same outcome and the wrapper collapses to that outcome. -/
theorem errorHandlerFrom_const {ε α : Type} (r : Except ε α) :
    ∀ i extra, errorHandlerFrom (fun _ => r) i extra = r := by
  intro i extra
  induction extra generalizing i with
  | zero => rfl
  | succ n ih =>
    cases r with
    | ok v => rfl
    | error e => simpa [errorHandlerFrom] using ih (i + 1)

theorem error_handler_const {ε α : Type} (r : Except ε α) (retries : Nat) :
    error_handler (fun _ => r) retries = r :=
  errorHandlerFrom_const r 0 (retries - 1)


theorem splitLast_isNone {c : Char} {cs : List Char} (h : c ∉ cs) :
    splitLast c cs = none := by
  cases hs : splitLast c cs with
  | none => rfl
  | some pr =>
    obtain ⟨a, b⟩ := pr
    exact absurd (by rw [(splitLast_eq_append hs).1]; simp) h

theorem contains_iff_mem {a : String} {l : List String} :
    l.contains a = true ↔ a ∈ l := by
  induction l with
  | nil => simp [List.contains]
  | cons x xs ih =>
    simp only [List.contains_cons, Bool.or_eq_true, beq_iff_eq, List.mem_cons, ih]

theorem charListLe_iff (as bs : List Char) :
    charListLe as bs = true ↔ ¬ List.Lex (· < ·) bs as := by
  induction as generalizing bs with
  | nil =>
    exact iff_of_true rfl (List.Lex.not_nil_right _ _)
  | cons a as ih =>
    cases bs with
    | nil =>
      apply iff_of_false
      · simp [charListLe]
      · intro hn; exact hn List.Lex.nil
    | cons b bs =>
      by_cases hab : a < b
      · apply iff_of_true
        · simp [charListLe, hab]
        · intro hlex
          cases hlex with
          | cons h => exact absurd hab (lt_irrefl _)
          | rel h => exact absurd hab (asymm h)
      · by_cases hba : b < a
        · apply iff_of_false
          · simp [charListLe, hab, hba]
          · intro hn; exact hn (List.Lex.rel hba)
        · have heq : a = b := le_antisymm (le_of_not_lt hba) (le_of_not_lt hab)
          subst heq
          have hstep : charListLe (a :: as) (a :: bs) = charListLe as bs := by
            simp [charListLe, hab]
          rw [hstep, ih bs, List.Lex.cons_iff]

theorem py_le_iff_le {a b : String} : py_le a b = true ↔ a ≤ b := by
  rw [py_le, charListLe_iff]
  constructor
  · intro h
    by_contra hle
    have hba : b < a := lt_of_not_le hle
    exact h ((String.lt_iff_toList_lt).mp hba)
  · intro h hlex
    have hlt : b.toList < a.toList := hlex
    have hba : b < a := (String.lt_iff_toList_lt).mpr hlt
    exact absurd h (not_le_of_lt hba)

theorem py_sorted_sorted (l : List String) :
    (py_sorted l).Sorted (fun a b : String => a ≤ b) := by
  haveI : IsTotal String (fun a b => py_le a b = true) := ⟨fun a b => by
    rcases le_total a b with h | h
    · exact Or.inl (py_le_iff_le.mpr h)
    · exact Or.inr (py_le_iff_le.mpr h)⟩
  haveI : IsTrans String (fun a b => py_le a b = true) := ⟨fun a b c hab hbc =>
    py_le_iff_le.mpr (le_trans (py_le_iff_le.mp hab) (py_le_iff_le.mp hbc))⟩
  exact List.Pairwise.imp (fun hab => py_le_iff_le.mp hab)
    (List.sorted_insertionSort (fun a b => py_le a b = true) l)

theorem py_sorted_perm (l : List String) : (py_sorted l).Perm l :=
  List.perm_insertionSort (fun a b => py_le a b = true) l

theorem charToLower_eq_dot {c : Char} (h : Char.toLower c = '.') : c = '.' := by
  unfold Char.toLower at h
  simp only at h
  by_cases hcond : c.toNat >= 65 ∧ c.toNat <= 90
  · rw [if_pos hcond] at h
    exfalso
    have hvalid : (c.toNat + 32).isValidChar := Or.inl (by omega)
    rw [Char.ofNat, dif_pos hvalid] at h
    have h2 := congrArg Char.toNat h
    have h3 : (Char.ofNatAux (c.toNat + 32) hvalid).toNat = c.toNat + 32 := rfl
    rw [h3] at h2
    have h4 : ('.').toNat = 46 := rfl
    rw [h4] at h2
    omega
  · rw [if_neg hcond] at h
    exact h

theorem mem_insertPath {x a : String} {ds : List String} :
    x ∈ insertPath a ds ↔ x = a ∨ x ∈ ds := by
  unfold insertPath
  split
  · rename_i hcont
    constructor
    · exact fun h => Or.inr h
    · rintro (rfl | h)
      · exact contains_iff_mem.mp hcont
      · exact h
  · simp [List.mem_cons]

theorem mem_foldl_insertPath (x : String) :
    ∀ (l ds : List String), x ∈ l.foldl (fun ds a => insertPath a ds) ds ↔ x ∈ l ∨ x ∈ ds := by
  intro l
  induction l with
  | nil => simp
  | cons a as ih =>
    intro ds
    simp only [List.foldl_cons, ih, mem_insertPath, List.mem_cons]
    tauto

theorem splitextBase_snd_cases (p : String) (dirRaw base : List Char) :
    (splitextBase p dirRaw base).2 = "" ∨
      ∃ tail : List Char, (splitextBase p dirRaw base).2 = ⟨'.' :: tail⟩ ∧ '.' ∉ tail := by
  unfold splitextBase
  cases hd : splitLast '.' (base.dropWhile (fun ch => ch = '.')) with
  | none => exact Or.inl rfl
  | some pr =>
    obtain ⟨stem, tail⟩ := pr
    exact Or.inr ⟨tail, rfl, (splitLast_eq_append hd).2⟩

theorem splitext_snd_cases (p : String) :
    (os_path_splitext p).2 = "" ∨
      ∃ tail : List Char, (os_path_splitext p).2 = ⟨'.' :: tail⟩ ∧ '.' ∉ tail := by
  unfold os_path_splitext
  cases hs : splitLast '/' p.toList with
  | none => exact splitextBase_snd_cases p [] p.toList
  | some pr =>
    obtain ⟨pre, post⟩ := pr
    exact splitextBase_snd_cases p (pre ++ ['/']) post

theorem basename_no_slash (p : String) : '/' ∉ (os_path_basename p).toList := by
  unfold os_path_basename
  cases hs : splitLast '/' p.toList with
  | none => exact splitLast_none hs
  | some pr =>
    obtain ⟨pre, post⟩ := pr
    exact (splitLast_eq_append hs).2

theorem splitextBase_dotfile {p : String} {dirRaw : List Char} {t : List Char}
    (hdot : '.' ∉ t) : splitextBase p dirRaw ('.' :: t) = (p, "") := by
  unfold splitextBase
  have hrest : ('.' :: t).dropWhile (fun ch => ch = '.') = t := by
    rw [List.dropWhile_cons]
    simp only [decide_True, if_pos]
    cases t with
    | nil => rfl
    | cons c cs =>
      rw [List.dropWhile_cons]
      have hc : ¬ (c = '.') := fun h => hdot (by rw [h]; exact List.mem_cons_self _ _)
      simp [hc]
  rw [hrest, splitLast_isNone hdot]

theorem dropWhile_dot_cons_map {tail : List Char} (hdot : '.' ∉ tail) :
    ('.' :: tail.map Char.toLower).dropWhile (fun ch => ch = '.') = tail.map Char.toLower := by
  rw [List.dropWhile_cons]
  simp only [decide_True, if_pos]
  cases tail with
  | nil => rfl
  | cons c cs =>
    simp only [List.map_cons]
    rw [List.dropWhile_cons]
    have hc : ¬ (Char.toLower c = '.') := by
      intro h
      exact hdot ((charToLower_eq_dot h) ▸ List.mem_cons_self _ _)
    simp [hc]

theorem string_cons_ne_empty (c : Char) (cs : List Char) : (⟨c :: cs⟩ : String) ≠ "" := by
  intro heq
  have h := congrArg String.toList heq
  simp only [String.toList] at h
  cases h

/-- C5: for every path, `get_file_format` is absent when the path has no
extension, maps extension `.jpg` to `jpeg` and `.tif` to `tiff`, and for every
other extension returns the extension lower-cased with the leading dot
dropped; in particular `get_file_format("a.JPG") = "jpeg"`. -/
theorem get_file_format_matches_claim :
    (∀ p, get_file_format p = get_file_format_claim p) ∧
    get_file_format ("a.JPG") = some ("jpeg") := by
  constructor
  · intro p
    rcases splitext_snd_cases p with h | ⟨tail, h, hmem⟩
    · unfold get_file_format get_file_format_claim get_file_extension
      rw [h]
      rfl
    · have hne : (⟨'.' :: tail⟩ : String) ≠ "" := string_cons_ne_empty _ _
      have hext : get_file_extension p = some (str_lower ⟨'.' :: tail⟩) := by
        unfold get_file_extension
        rw [h, if_neg hne]
      unfold get_file_format get_file_format_claim
      rw [hext, h, if_neg hne]
      simp only []
      by_cases hjpg : str_lower ⟨'.' :: tail⟩ = (".jpg")
      · rw [if_pos hjpg, if_pos hjpg]
      · rw [if_neg hjpg, if_neg hjpg]
        by_cases htif : str_lower ⟨'.' :: tail⟩ = (".tif")
        · rw [if_pos htif, if_pos htif]
        · rw [if_neg htif, if_neg htif]
          have hlist : (str_lower ⟨'.' :: tail⟩).toList = '.' :: tail.map Char.toLower := by
            simp [str_lower]
          rw [hlist]
          rw [dropWhile_dot_cons_map hmem]
          rfl
  · decide

/-- C10: for every path whose base name begins with a dot and contains no
further dot, the leading dot is not an extension separator: `get_file_name`
returns the full base name including the dot, and `get_file_extension` is
absent. -/
theorem dotfile_name_and_extension (p : String) (t : List Char)
    (hbase : (os_path_basename p).toList = '.' :: t) (hdot : '.' ∉ t) :
    get_file_name p = some (os_path_basename p) ∧ get_file_extension p = none := by
  have hnoslash : '/' ∉ (os_path_basename p).toList := basename_no_slash p
  have hsplit : os_path_splitext p = (p, "") := by
    unfold os_path_basename at hbase
    unfold os_path_splitext
    cases hs : splitLast '/' p.toList with
    | none =>
      rw [hs] at hbase
      rw [hbase]
      exact splitextBase_dotfile hdot
    | some pr =>
      obtain ⟨pre, post⟩ := pr
      rw [hs] at hbase
      have hpost : post = '.' :: t := hbase
      rw [hpost]
      exact splitextBase_dotfile hdot
  have hbne : os_path_basename p ≠ "" := by
    intro heq
    rw [heq] at hbase
    cases hbase
  have hsplitbase :
      os_path_splitext (os_path_basename p) = (os_path_basename p, "") := by
    unfold os_path_splitext
    rw [splitLast_isNone hnoslash, hbase]
    exact splitextBase_dotfile hdot
  constructor
  · unfold get_file_name
    rw [hsplitbase]
    simp only [if_neg hbne]
  · unfold get_file_extension
    rw [hsplit]
    rfl

/-- C10 witness: `.gitignore` keeps its name and has no extension. -/
theorem dotfile_name_and_extension_witness :
    get_file_name (".gitignore") = some (".gitignore") ∧
    get_file_extension (".gitignore") = none := by
  have h := dotfile_name_and_extension (".gitignore")
    ['g', 'i', 't', 'i', 'g', 'n', 'o', 'r', 'e'] (by decide) (by decide)
  exact ⟨by rw [h.1]; rfl, h.2⟩

/-- C1: on the empty list the batch predicates `has_audio`, `has_image`,
`has_video`, `are_audios` and `are_videos` all return `false` without raising,
for every filesystem state and format configuration; `are_images`, however,
raises `NameError` on every call — its guard reads the unbound name
`audio_paths` — so `are_images([]) == false` fails on the code. -/
theorem batch_predicates_empty_list (fs : FS) (cfg : Choices) :
    has_audio fs cfg [] = false ∧ has_image fs cfg [] = false ∧
    has_video fs cfg [] = false ∧ are_audios fs cfg [] = false ∧
    are_videos fs cfg [] = false ∧
    are_images fs cfg [] = Except.error PyErr.nameError :=
  ⟨rfl, rfl, rfl, rfl, rfl, rfl⟩

/-- C2: `remove_file` on an existing regular file raises `TypeError` instead
of returning a success boolean: `_file_operation(os.remove, file_path, None,
...)` calls `os.remove(file_path, None)` with a second positional argument,
which CPython's keyword-only `dir_fd` rejects on every retry attempt, and the
retry wrapper re-raises.  On a path that is not a file the documented `false`
is returned. -/
theorem remove_file_eval :
    remove_file fsOneFile ("a.txt") = Except.error PyErr.typeError ∧
    remove_file fsOneFile ("missing.txt") = Except.ok (fsOneFile, false) :=
  ⟨rfl, rfl⟩

/-- C8: when the precondition `is_file(src)` fails, `copy_file` returns
`false` and the filesystem state is returned unchanged — no destination is
created, no OS call is made. -/
theorem copy_file_missing_source (fs : FS) (src dest : String)
    (h : is_file fs src = false) :
    copy_file fs src dest = Except.ok (fs, false) := by
  simp [copy_file, h]

/-- C8 witness. -/
theorem copy_file_missing_source_witness :
    copy_file fsEmpty ("a") ("b") = Except.ok (fsEmpty, false) :=
  copy_file_missing_source fsEmpty ("a") ("b") rfl

theorem errorHandlerCallsFrom_le {ε α : Type} (op : Nat → Except ε α) :
    ∀ extra i, errorHandlerCallsFrom op i extra ≤ extra + 1 := by
  intro extra
  induction extra with
  | zero => intro i; exact le_refl 1
  | succ n ih =>
    intro i
    unfold errorHandlerCallsFrom
    cases hop : op i with
    | ok v => simp
    | error e =>
      simp only []
      have := ih (i + 1)
      omega

theorem errorHandlerFrom_success {ε α : Type} (op : Nat → Except ε α) :
    ∀ extra i k, k ≤ extra → (∀ j, j < k → (op (i + j)).isOk = false) →
      (op (i + k)).isOk = true → errorHandlerFrom op i extra = op (i + k) := by
  intro extra
  induction extra with
  | zero =>
    intro i k hk hfail hok
    have hk0 : k = 0 := Nat.le_zero.mp hk
    subst hk0
    simp [errorHandlerFrom]
  | succ n ih =>
    intro i k hk hfail hok
    unfold errorHandlerFrom
    cases k with
    | zero =>
      rw [Nat.add_zero] at hok
      cases hop : op i with
      | ok v => simp [hop]
      | error e => rw [hop] at hok; cases hok
    | succ k2 =>
      have h0 : (op i).isOk = false := by
        have := hfail 0 (Nat.succ_pos _)
        rwa [Nat.add_zero] at this
      cases hop : op i with
      | ok v => rw [hop] at h0; cases h0
      | error e =>
        simp only []
        have hfail2 : ∀ j, j < k2 → (op (i + 1 + j)).isOk = false := by
          intro j hj
          have harg : i + 1 + j = i + (j + 1) := by omega
          rw [harg]
          exact hfail (j + 1) (by omega)
        have hok2 : (op (i + 1 + k2)).isOk = true := by
          have harg : i + 1 + k2 = i + (k2 + 1) := by omega
          rw [harg]
          exact hok
        have := ih (i + 1) k2 (Nat.le_of_succ_le_succ hk) hfail2 hok2
        rw [this]
        have harg : i + 1 + k2 = i + (k2 + 1) := by omega
        rw [harg]

theorem errorHandlerFrom_allFail {ε α : Type} (op : Nat → Except ε α) :
    ∀ extra i, (∀ j, j ≤ extra → (op (i + j)).isOk = false) →
      errorHandlerFrom op i extra = op (i + extra) := by
  intro extra
  induction extra with
  | zero =>
    intro i hfail
    simp [errorHandlerFrom]
  | succ n ih =>
    intro i hfail
    unfold errorHandlerFrom
    cases hop : op i with
    | ok v =>
      have := hfail 0 (Nat.zero_le _)
      rw [Nat.add_zero, hop] at this
      cases this
    | error e =>
      simp only []
      have hfail2 : ∀ j, j ≤ n → (op (i + 1 + j)).isOk = false := by
        intro j hj
        have harg : i + 1 + j = i + (j + 1) := by omega
        rw [harg]
        exact hfail (j + 1) (by omega)
      rw [ih (i + 1) hfail2]
      have harg : i + 1 + n = i + (n + 1) := by omega
      rw [harg]

theorem errorHandlerFrom_congr {ε α : Type} (op op2 : Nat → Except ε α) :
    ∀ extra i, (∀ j, i ≤ j → j ≤ i + extra → op j = op2 j) →
      errorHandlerFrom op i extra = errorHandlerFrom op2 i extra := by
  intro extra
  induction extra with
  | zero =>
    intro i hagree
    exact hagree i (le_refl i) (by omega)
  | succ n ih =>
    intro i hagree
    unfold errorHandlerFrom
    rw [← hagree i (le_refl i) (by omega)]
    cases hop : op i with
    | ok v => rfl
    | error e =>
      simp only []
      exact ih (i + 1) (fun j h1 h2 => hagree j (by omega) (by omega))

/-- C3: with `retries ≥ 1` (the source default is 3) the retry wrapper invokes
the operation at most `retries` times — its invocation count is bounded and
its result only depends on the first `retries` attempt outcomes; if some
attempt succeeds after only failures it returns exactly that attempt's result;
and if every attempt fails it returns (re-raises) the final attempt's
failure. -/
theorem error_handler_retry_contract {ε α : Type} (op op2 : Nat → Except ε α)
    (retries : Nat) (h : 1 ≤ retries) :
    error_handler_calls op retries ≤ retries ∧
    ((∀ i, i < retries → op i = op2 i) →
      error_handler op retries = error_handler op2 retries) ∧
    (∀ i, i < retries → (∀ j, j < i → (op j).isOk = false) → (op i).isOk = true →
      error_handler op retries = op i) ∧
    ((∀ i, i < retries → (op i).isOk = false) →
      error_handler op retries = op (retries - 1)) := by
  refine ⟨?_, ?_, ?_, ?_⟩
  · have := errorHandlerCallsFrom_le op (retries - 1) 0
    unfold error_handler_calls
    omega
  · intro hagree
    unfold error_handler
    exact errorHandlerFrom_congr op op2 (retries - 1) 0
      (fun j h1 h2 => hagree j (by omega))
  · intro i hi hfail hok
    unfold error_handler
    have := errorHandlerFrom_success op (retries - 1) 0 i (by omega)
      (fun j hj => by rw [Nat.zero_add]; exact hfail j hj)
      (by rw [Nat.zero_add]; exact hok)
    rwa [Nat.zero_add] at this
  · intro hfail
    unfold error_handler
    have := errorHandlerFrom_allFail op (retries - 1) 0
      (fun j hj => by rw [Nat.zero_add]; exact hfail j (by omega))
    rwa [Nat.zero_add] at this

/-- C3 witness: with the default three attempts, an operation failing twice
then succeeding yields the third attempt's result in at most three
invocations, and an always-failing operation yields the third (final)
failure. -/
theorem error_handler_retry_contract_witness :
    error_handler_calls opTwiceFailing 3 ≤ 3 ∧
    error_handler opTwiceFailing 3 = Except.ok 42 ∧
    error_handler opAlwaysFailing 3 = opAlwaysFailing 2 := by
  refine ⟨(error_handler_retry_contract opTwiceFailing opTwiceFailing 3 (by decide)).1, ?_, ?_⟩
  · have h2 := (error_handler_retry_contract opTwiceFailing opTwiceFailing 3
      (by decide)).2.2.1 2 (by decide)
      (fun j hj => by interval_cases j <;> rfl) rfl
    rw [h2]
    rfl
  · exact (error_handler_retry_contract opAlwaysFailing opAlwaysFailing 3
      (by decide)).2.2.2 (fun i hi => rfl)

/-- C6: the audio and image filters return exactly the members that are
regular files whose format lies in the category's configured list, in input
order (`List.filter` preserves order); in particular every returned path
satisfies `is_file`, so directories and missing paths are always dropped, and
the empty input yields the empty output. -/
theorem filter_paths_contract (fs : FS) (cfg : Choices) (paths : List String) :
    filter_audio_paths fs cfg paths =
      paths.filter (fun p => is_file fs p &&
        optionMem (get_file_format p) cfg.audio_formats) ∧
    filter_image_paths fs cfg paths =
      paths.filter (fun p => is_file fs p &&
        optionMem (get_file_format p) cfg.image_formats) ∧
    (∀ p, p ∈ filter_audio_paths fs cfg paths → is_file fs p = true) ∧
    (∀ p, p ∈ filter_image_paths fs cfg paths → is_file fs p = true) ∧
    filter_audio_paths fs cfg [] = [] ∧ filter_image_paths fs cfg [] = [] := by
  have haud : filter_audio_paths fs cfg paths =
      paths.filter (fun p => is_file fs p &&
        optionMem (get_file_format p) cfg.audio_formats) := by
    cases paths with
    | nil => rfl
    | cons a as => rfl
  have himg : filter_image_paths fs cfg paths =
      paths.filter (fun p => is_file fs p &&
        optionMem (get_file_format p) cfg.image_formats) := by
    cases paths with
    | nil => rfl
    | cons a as => rfl
  refine ⟨haud, himg, ?_, ?_, rfl, rfl⟩
  · intro p hp
    rw [haud] at hp
    exact (Bool.and_eq_true _ _ |>.mp (List.mem_filter.mp hp).2).1
  · intro p hp
    rw [himg] at hp
    exact (Bool.and_eq_true _ _ |>.mp (List.mem_filter.mp hp).2).1

/-- C6 witness: on a list holding an audio file, a directory, a missing path
and an image file, the audio filter keeps exactly the audio file, which indeed
satisfies `is_file`. -/
theorem filter_paths_contract_witness :
    filter_audio_paths fsMedia cfgDefault ["x.mp3", "d", "zzz.mp3", "y.jpeg"]
      = ["x.mp3"] ∧
    is_file fsMedia ("x.mp3") = true := by
  refine ⟨by decide, ?_⟩
  exact (filter_paths_contract fsMedia cfgDefault
    ["x.mp3", "d", "zzz.mp3", "y.jpeg"]).2.2.1 ("x.mp3") (by decide)

/-- C7: `resolve_file_paths` returns the empty list on a non-directory;
otherwise it returns, sorted lexicographically by entry name, every listing
entry joined onto the directory, excluding entries starting with `.` or
`__`. -/
theorem resolve_file_paths_contract (fs : FS) (d : String) :
    (is_directory fs d = false → resolve_file_paths fs d = []) ∧
    (is_directory fs d = true →
      ∃ entries : List String,
        resolve_file_paths fs d = entries.map (fun e => os_path_join d e) ∧
        entries.Sorted (fun a b : String => a ≤ b) ∧
        entries.Perm ((fs.listing d).filter
          (fun e => !(str_startswith e (".") || str_startswith e ("__"))))) := by
  constructor
  · intro h
    unfold resolve_file_paths
    rw [h]
    rfl
  · intro h
    refine ⟨(py_sorted (fs.listing d)).filter
      (fun e => !(str_startswith e (".") || str_startswith e ("__"))), ?_, ?_, ?_⟩
    · unfold resolve_file_paths
      rw [h]
      rfl
    · exact List.Pairwise.filter _ (py_sorted_sorted _)
    · exact (py_sorted_perm _).filter _

/-- C7 witness: the spec's example listing produces exactly
`["/d/a.txt", "/d/b.txt"]`, and a non-directory yields `[]`. -/
theorem resolve_file_paths_contract_witness :
    resolve_file_paths fsListed ("/d") = ["/d/a.txt", "/d/b.txt"] ∧
    resolve_file_paths fsEmpty ("/d") = [] :=
  ⟨by decide, (resolve_file_paths_contract fsEmpty ("/d")).1 rfl⟩

/-- C4: `in_directory` holds iff the pattern string is non-empty, has a
non-empty parent directory, is not itself a directory, and the parent
directory exists; `resolve_file_pattern` returns the sorted glob matches when
`in_directory` holds and the empty list otherwise, regardless of the glob
oracle. -/
theorem resolve_file_pattern_contract (fs : FS) (p : String) :
    in_directory fs p =
      (!(decide (p = "")) && !(decide (os_path_dirname p = "")) &&
        !is_directory fs p && is_directory fs (os_path_dirname p)) ∧
    (in_directory fs p = false → resolve_file_pattern fs p = []) ∧
    (in_directory fs p = true →
      (resolve_file_pattern fs p).Sorted (fun a b : String => a ≤ b) ∧
      (resolve_file_pattern fs p).Perm (fs.globMatches p)) := by
  refine ⟨?_, ?_, ?_⟩
  · by_cases hp : p = ""
    · simp [in_directory, hp]
    · simp only [in_directory, if_neg hp, decide_eq_true_eq]
      simp [hp, Bool.and_assoc]
  · intro h
    unfold resolve_file_pattern
    rw [h]
    rfl
  · intro h
    unfold resolve_file_pattern
    rw [h]
    exact ⟨py_sorted_sorted _, py_sorted_perm _⟩

/-- C4 witness: a pattern whose literal parent `/d` exists is resolved to the
sorted matches; with no parent directory present the result is empty even
though the glob oracle would match. -/
theorem resolve_file_pattern_contract_witness :
    in_directory fsGlobbed ("/d/*.png") = true ∧
    resolve_file_pattern fsGlobbed ("/d/*.png") = ["/d/a.png", "/d/b.png"] ∧
    (resolve_file_pattern fsGlobbed ("/d/*.png")).Perm
      (fsGlobbed.globMatches ("/d/*.png")) ∧
    resolve_file_pattern fsEmpty ("/d/*.png") = [] := by
  refine ⟨by decide, by decide, ?_, ?_⟩
  · exact ((resolve_file_pattern_contract fsGlobbed ("/d/*.png")).2.2 (by decide)).2
  · exact (resolve_file_pattern_contract fsEmpty ("/d/*.png")).2.1 rfl

theorem makedirs_ok {fs : FS} {p : String}
    (h1 : fs.files.contains p = false)
    (h2 : (strictAncestors p).any fs.files.contains = false) :
    os_makedirs_existok fs p = Except.ok
      { fs with dirs :=
          (p :: strictAncestors p).foldl (fun ds a => insertPath a ds) fs.dirs } := by
  unfold os_makedirs_existok
  rw [h1, h2]
  rfl

theorem create_directory_once {fs : FS} {p : String} (hp : ¬ (p = ""))
    (hfile : is_file fs p = false)
    (hanc : (strictAncestors p).any fs.files.contains = false) :
    create_directory fs p = Except.ok
      ({ fs with dirs :=
          (p :: strictAncestors p).foldl (fun ds a => insertPath a ds) fs.dirs }, true) ∧
    is_directory
      { fs with dirs :=
          (p :: strictAncestors p).foldl (fun ds a => insertPath a ds) fs.dirs } p
      = true := by
  have hcont : fs.files.contains p = false := by
    unfold is_file os_isfile at hfile
    rwa [if_neg hp] at hfile
  have hdir : is_directory
      { fs with dirs :=
          (p :: strictAncestors p).foldl (fun ds a => insertPath a ds) fs.dirs } p
      = true := by
    unfold is_directory os_isdir
    rw [if_neg hp]
    exact contains_iff_mem.mpr
      ((mem_foldl_insertPath p _ _).mpr (Or.inl (List.mem_cons_self _ _)))
  refine ⟨?_, hdir⟩
  unfold create_directory
  have hguard : (decide (p = "") || is_file fs p) = false := by
    simp [hp, hfile]
  rw [hguard]
  simp only [Bool.false_eq_true, if_false]
  rw [error_handler_const, makedirs_ok hcont hanc]
  simp only [hdir]

/-- C9 counterexample: the claim "otherwise idempotent: calling it twice
returns true both times and never raises" fails when a strict ancestor of the
path is an existing regular file — with `a` a regular file, `a/b` is neither
empty nor a file, yet the very first `create_directory("a/b")` raises
(`NotADirectoryError` surviving all retries) instead of returning true. -/
theorem create_directory_under_file_raises :
    ("a/b" : String) ≠ "" ∧ is_file fsFileA ("a/b") = false ∧
    create_directory fsFileA ("a/b") = Except.error PyErr.notADirectory :=
  ⟨by decide, rfl, rfl⟩

/-- C9 (amended): `create_directory` returns false with no OS call when the
path is empty or an existing regular file; otherwise, PROVIDED no strict
ancestor of the path is an existing regular file, it is idempotent: two
successive calls both return true without raising, and `is_directory` holds
after each call. -/
theorem create_directory_contract (fs : FS) (p : String) :
    ((p = "" ∨ is_file fs p = true) → create_directory fs p = Except.ok (fs, false)) ∧
    (¬ (p = "") → is_file fs p = false →
      (∀ a, a ∈ strictAncestors p → a ∉ fs.files) →
      ∃ fs1 fs2,
        create_directory fs p = Except.ok (fs1, true) ∧
        is_directory fs1 p = true ∧
        create_directory fs1 p = Except.ok (fs2, true) ∧
        is_directory fs2 p = true) := by
  constructor
  · rintro (hp | hfile)
    · simp [create_directory, hp]
    · simp [create_directory, hfile]
  · intro hp hfile hanc
    have hanc1 : (strictAncestors p).any fs.files.contains = false := by
      rw [List.any_eq_false]
      intro a ha htrue
      exact hanc a ha (contains_iff_mem.mp htrue)
    obtain ⟨he1, hd1⟩ := create_directory_once hp hfile hanc1
    obtain ⟨he2, hd2⟩ := @create_directory_once
      { fs with dirs :=
          (p :: strictAncestors p).foldl (fun ds a => insertPath a ds) fs.dirs }
      p hp hfile hanc1
    exact ⟨_, _, he1, hd1, he2, hd2⟩

/-- C9 witness: on an empty filesystem, `create_directory("")` fails fast with
false, while two successive `create_directory("d")` calls both return true
with the directory present after each. -/
theorem create_directory_contract_witness :
    create_directory fsEmpty ("") = Except.ok (fsEmpty, false) ∧
    (∃ fs1 fs2,
      create_directory fsEmpty ("d") = Except.ok (fs1, true) ∧
      is_directory fs1 ("d") = true ∧
      create_directory fs1 ("d") = Except.ok (fs2, true) ∧
      is_directory fs2 ("d") = true) :=
  ⟨(create_directory_contract fsEmpty ("")).1 (Or.inl rfl),
   (create_directory_contract fsEmpty ("d")).2 (by decide) rfl
     (fun a ha => by
       have hsa : strictAncestors ("d") = [] := by decide
       rw [hsa] at ha
       cases ha)⟩
